import Mathlib

/-!
Shallow embedding of the file-content dispatcher in
`pkg/handlers/handlers.go` (`HandleFile`, `processHandler`,
`handleChunks`), together with proofs of the specification claims.

Modelling conventions:

* A byte slice (`[]byte`) is a `List Nat`.
* An `io.Reader` value is modelled by the inductive `Reader`: the
  rewindable disk-buffer reader constructed by the dispatcher carries its
  underlying bytes and current position; any other reader (replacement
  streams returned by `HandleSpecialized`, wrapped readers returned by
  `IsFiletype`) is an opaque `external` value with an identity.
* A `Handler` is a record of its three methods (`FromFile` producing the
  full sequence of payloads its channel emits before closing,
  `IsFiletype`, and the optional `HandleSpecialized` capability — the Go
  type assertion `h.(SpecializedHandler)` becomes an `Option` field).
  Errors are modelled by their only observable here: presence
  (`Bool`).
* The cancellable context and the fallible environment (whether
  `diskbufferreader.New` and `Seek` fail in a given attempt) are an
  explicit `AttemptEnv` record per handler attempt.  Cancellation of the
  relay loop is a `doneAt : Option Nat` oracle: the index of the
  suspension point (each loop iteration has a receive select and a send
  select) at which the `ctx.Done()` branch is selected, `none` when the
  context is never cancelled.
* Side effects (method invocations, log statements, chunks sent,
  `Stop`/`Close` release calls) are recorded in an event trace so that
  call-order and resource-release claims are statable.
-/

/-- A byte slice. -/
abbrev Bytes := List Nat

/-- One payload emitted on a handler's producer channel (`chan []byte`). -/
abbrev Payload := List Nat

/-- Model of `sources.Chunk`: shared metadata fields set by the caller in
the chunk skeleton, plus the `Data` payload attached by the relay. -/
structure Chunk where
  sourceID : Nat
  sourceType : Nat
  verify : Bool
  data : Bytes
deriving Repr, DecidableEq

/-- Model of an `io.Reader` value.  `rewindable bytes pos` is the
disk-buffer reader over `bytes` at read position `pos`; `external id` is
any other reader value (e.g. a replacement stream produced by a
specialized handler). -/
inductive Reader where
  | rewindable (bytes : Bytes) (pos : Nat)
  | external (id : Nat)
deriving Repr, DecidableEq

/-- Modelled from the spec: the disk-buffer-reader package is an external
collaborator; its `Seek(0, io.SeekStart)` contract is that subsequent
reads reproduce the bytes from the beginning. -/
def Reader.seekToStart : Reader → Reader
  | Reader.rewindable b _ => Reader.rewindable b 0
  | r => r

/-- Modelled from the spec: the bytes a reader presents from its current
position (`none` for opaque external readers). -/
def Reader.remaining : Reader → Option Bytes
  | Reader.rewindable b p => some (List.drop p b)
  | Reader.external _ => none

/-- Model of the `Handler` interface together with the optional
`SpecializedHandler` capability.  `fromFile r` is the complete sequence of
payloads the producer channel returned by `FromFile(ctx, r)` emits before
it is closed; `isFiletype r` is the `(io.Reader, bool)` result of
`IsFiletype(ctx, r)`; `specialized` is `some f` exactly when the dynamic
type assertion `h.(SpecializedHandler)` succeeds, and `f r` is then the
`(io.Reader, bool, error)` result of `HandleSpecialized(ctx, r)` with the
error modelled by its presence. -/
structure Handler where
  fromFile : Reader → List Payload
  isFiletype : Reader → Reader × Bool
  specialized : Option (Reader → Reader × Bool × Bool)

/-- The per-attempt environment: whether `diskbufferreader.New` fails for
this attempt, whether `reReader.Seek(0, io.SeekStart)` fails, and the
cancellation oracle for the relay loop run in this attempt. -/
structure AttemptEnv where
  newFails : Bool
  seekFails : Bool
  doneAt : Option Nat
deriving Repr, DecidableEq

/-- Observable events of one dispatch call, in program order. -/
inductive Event where
  | newCall
  | newReReader (r : Reader)
  | newReReaderFailed
  | specializedCall (res : Reader × Bool × Bool)
  | logSpecialErr
  | seekCall (ok : Bool)
  | isFiletypeCall (res : Reader × Bool)
  | fromFileCall (r : Reader)
  | sent (c : Chunk)
  | stopCall
  | closeCall
deriving Repr, DecidableEq

/-- Embedding of `handleChunks`: the relay loop that drains the handler's
producer channel `ps` and republishes each payload as a clone of the
skeleton with the payload attached.  `doneAt` is the cancellation oracle:
`some k` means the `ctx.Done()` branch is selected at suspension point
`k`, where iteration `i` of the loop has its receive select at point `2*i`
and its send select at point `2*i + 1`; `none` means the context is never
cancelled.  Returns the chunks sent on `chunksChan`, in order, and the
boolean result of `handleChunks`. -/
def handleChunks : Option Nat → List Payload → Chunk → List Chunk × Bool
  | some 0, _, _ => ([], false)
  | _, [], _ => ([], true)
  | some 1, _ :: _, _ => ([], false)
  | some (k + 2), p :: rest, skel =>
    let r := handleChunks (some k) rest skel
    ({ skel with data := p } :: r.1, r.2)
  | none, p :: rest, skel =>
    let r := handleChunks none rest skel
    ({ skel with data := p } :: r.1, r.2)

/-- The ordinary (non-specialized) tail of `processHandler`: seek the
re-reader back to the start (failing the attempt if the seek errors), run
`IsFiletype` on it, and on acceptance relay the chunks produced by
`FromFile` on the re-reader itself — the reader returned by `IsFiletype`
is discarded (`_, isType := h.IsFiletype(ctx, reReader)`).  Returns the
attempt's result, the chunks sent, and the event trace of this part. -/
def ordinarySteps (env : AttemptEnv) (h : Handler) (reReader : Reader)
    (skel : Chunk) : Bool × List Chunk × List Event :=
  if env.seekFails then
    (false, [], [Event.seekCall false])
  else
    let seeked := Reader.seekToStart reReader
    let tc := h.isFiletype seeked
    if tc.2 then
      let relayed := handleChunks env.doneAt (h.fromFile seeked) skel
      (relayed.2, relayed.1,
        [Event.seekCall true, Event.isFiletypeCall tc,
            Event.fromFileCall seeked] ++ relayed.1.map Event.sent)
    else
      (false, [], [Event.seekCall true, Event.isFiletypeCall tc])

/-- Embedding of `processHandler`: one handler variant's attempt on a
freshly constructed re-reader.  If the variant has the specialized
capability it is offered the stream first: on recognition the replacement
reader is fed straight to `FromFile` and the relay result is returned; on
an unrecognized error the error is logged and control falls through to the
ordinary steps.  The deferred `reReader.Stop()` then `reReader.Close()`
run on every exit path, so the trace always ends with them. -/
def processHandler (env : AttemptEnv) (h : Handler) (reReader : Reader)
    (skel : Chunk) : Bool × List Chunk × List Event :=
  let body :=
    match h.specialized with
    | some hspec =>
      let sres := hspec reReader
      if sres.2.1 then
        let relayed := handleChunks env.doneAt (h.fromFile sres.1) skel
        (relayed.2, relayed.1,
          [Event.specializedCall sres, Event.fromFileCall sres.1]
            ++ relayed.1.map Event.sent)
      else
        let logEvents := if sres.2.2 then [Event.logSpecialErr] else []
        let rest := ordinarySteps env h reReader skel
        (rest.1, rest.2.1,
          Event.specializedCall sres :: (logEvents ++ rest.2.2))
    | none => ordinarySteps env h reReader skel
  (body.1, body.2.1, body.2.2 ++ [Event.stopCall, Event.closeCall])

/-- The environment used when the per-attempt environment list runs short
(never reached in the claims, which supply one environment per variant). -/
def defaultEnv : AttemptEnv :=
  { newFails := false, seekFails := false, doneAt := none }

/-- Embedding of `HandleFile`: iterate the registered handler variants in
order (the Go code obtains them from `DefaultHandlers()`; the list is a
parameter here since the concrete variants live outside this package).
For each variant: reset it (`h.New()`), construct a fresh re-reader over
the raw input — returning `false` for the whole call if construction
fails — and run `processHandler`; stop at the first variant whose attempt
succeeds.  `envs` supplies the per-attempt environment for each variant in
order.  Returns the overall result, all chunks sent on `chunksChan` during
the call, and the event trace. -/
def HandleFile : List AttemptEnv → List Handler → Bytes → Chunk →
    Bool × List Chunk × List Event
  | _, [], _, _ => (false, [], [])
  | envs, h :: hs, file, skel =>
    let env := envs.headD defaultEnv
    if env.newFails then
      (false, [], [Event.newCall, Event.newReReaderFailed])
    else
      let reReader := Reader.rewindable file 0
      let attempt := processHandler env h reReader skel
      if attempt.1 then
        (true, attempt.2.1,
          Event.newCall :: Event.newReReader reReader :: attempt.2.2)
      else
        let next := HandleFile envs.tail hs file skel
        (next.1, attempt.2.1 ++ next.2.1,
          (Event.newCall :: Event.newReReader reReader :: attempt.2.2)
            ++ next.2.2)

/-- A handler variant accepts the stream in a given attempt environment
when either its specialized path recognizes it, or (falling through to the
ordinary path) the seek succeeds and its type check accepts the re-reader
seeked back to the start.  This is the selection criterion of the spec's
dispatch invariant. -/
def acceptsStream (env : AttemptEnv) (h : Handler) (reReader : Reader) :
    Bool :=
  (match h.specialized with
    | some hspec => (hspec reReader).2.1
    | none => false)
  || (!env.seekFails && (h.isFiletype (Reader.seekToStart reReader)).2)

/-- An uncancelled relay run forwards every payload and succeeds. -/
theorem handleChunks_none_eq (ps : List Payload) (skel : Chunk) :
    handleChunks none ps skel =
      (ps.map (fun p => { skel with data := p }), true) := by
  induction ps with
  | nil => rfl
  | cons p rest ih => simp [handleChunks, ih]

/-- A rejected attempt (selection criterion false) fails and sends no
chunks. -/
theorem processHandler_rejected_eq (env : AttemptEnv) (h : Handler)
    (r : Reader) (skel : Chunk)
    (hrej : acceptsStream env h r = false) :
    (processHandler env h r skel).1 = false ∧
      (processHandler env h r skel).2.1 = [] := by
  cases hsp : h.specialized with
  | none =>
    cases hsf : env.seekFails with
    | true => simp [processHandler, hsp, ordinarySteps, hsf]
    | false =>
      simp [acceptsStream, hsp, hsf] at hrej
      simp [processHandler, hsp, ordinarySteps, hsf, hrej]
  | some hspec =>
    simp [acceptsStream, hsp] at hrej
    cases hsf : env.seekFails with
    | true => simp [processHandler, hsp, ordinarySteps, hsf, hrej.1]
    | false =>
      have htc := hrej.2 (by simp [hsf])
      simp [processHandler, hsp, ordinarySteps, hsf, hrej.1, htc]

/-- An accepted attempt with the context never cancelled succeeds. -/
theorem processHandler_accepted_eq (env : AttemptEnv) (h : Handler)
    (r : Reader) (skel : Chunk)
    (hacc : acceptsStream env h r = true) (hnc : env.doneAt = none) :
    (processHandler env h r skel).1 = true := by
  cases hsp : h.specialized with
  | none =>
    simp [acceptsStream, hsp] at hacc
    simp [processHandler, hsp, ordinarySteps, hacc.1, hacc.2, hnc,
      handleChunks_none_eq]
  | some hspec =>
    cases hrec : (hspec r).2.1 with
    | true =>
      simp [processHandler, hsp, hrec, hnc, handleChunks_none_eq]
    | false =>
      simp [acceptsStream, hsp, hrec] at hacc
      simp [processHandler, hsp, hrec, ordinarySteps, hacc.1, hacc.2, hnc,
        handleChunks_none_eq]

/-- If every attempt in `pres` is a non-accepting variant whose re-reader
construction succeeds, the dispatch loop traverses them contributing no
chunks, and the call's outcome is that of the remaining variants. -/
theorem HandleFile_rejected_attempts (pres : List (AttemptEnv × Handler))
    (envs2 : List AttemptEnv) (hs2 : List Handler) (file : Bytes)
    (skel : Chunk)
    (hrej : ∀ p ∈ pres, p.1.newFails = false ∧
        acceptsStream p.1 p.2 (Reader.rewindable file 0) = false) :
    ∃ tr, HandleFile (pres.map Prod.fst ++ envs2) (pres.map Prod.snd ++ hs2)
        file skel =
      ((HandleFile envs2 hs2 file skel).1,
        (HandleFile envs2 hs2 file skel).2.1,
        tr ++ (HandleFile envs2 hs2 file skel).2.2) := by
  induction pres with
  | nil => exact ⟨[], rfl⟩
  | cons p rest ih =>
    have hp := hrej p (by simp)
    obtain ⟨tr, htr⟩ := ih (fun q hq => hrej q (by simp [hq]))
    have hfail := processHandler_rejected_eq p.1 p.2 (Reader.rewindable file 0)
      skel hp.2
    refine ⟨Event.newCall :: Event.newReReader (Reader.rewindable file 0) ::
      (processHandler p.1 p.2 (Reader.rewindable file 0) skel).2.2 ++ tr, ?_⟩
    simp [HandleFile, hp.1, hfail.1, hfail.2, htr]

/-- Concrete fixtures used to exhibit the hypotheses of the claim
theorems on explicit inputs.  `testSpecFn` recognizes rewindable readers
as a container (with an accompanying error) and reports an unrecognized
error on any other reader. -/
def testSpecFn : Reader → Reader × Bool × Bool
  | Reader.rewindable _ _ => (Reader.external 5, true, true)
  | Reader.external _ => (Reader.external 6, false, true)

/-- A handler with the specialized capability given by `testSpecFn`. -/
def testSpecHandler : Handler :=
  { fromFile := fun r =>
      match r with
      | Reader.external 5 => [[1], [2, 3]]
      | _ => [[9]]
    isFiletype := fun r => (r, false)
    specialized := some testSpecFn }

/-- An ordinary handler whose type check accepts every stream but returns
a different (wrapped) reader value. -/
def testOrdHandler : Handler :=
  { fromFile := fun _ => [[4], [5]]
    isFiletype := fun _ => (Reader.external 9, true)
    specialized := none }

/-- An ordinary handler whose type check rejects every stream. -/
def testRejectHandler : Handler :=
  { fromFile := fun _ => [[7]]
    isFiletype := fun r => (r, false)
    specialized := none }

/-- A chunk skeleton used by the witnesses. -/
def testSkel : Chunk :=
  { sourceID := 3, sourceType := 5, verify := true, data := [] }

/-- Claim C1: when the first `k` variants of the registered list do not
accept the stream and the `k+1`-st does (with its re-reader constructed
successfully and the context never cancelled), the dispatch call succeeds
and the chunks on the output channel are exactly the accepted variant's
attempt output — the rejected variants contribute zero chunks. -/
theorem HandleFile_selection_order (pres : List (AttemptEnv × Handler))
    (env : AttemptEnv) (h : Handler) (post : List AttemptEnv)
    (hsPost : List Handler) (file : Bytes) (skel : Chunk)
    (hrej : ∀ p ∈ pres, p.1.newFails = false ∧
        acceptsStream p.1 p.2 (Reader.rewindable file 0) = false)
    (hnf : env.newFails = false)
    (hacc : acceptsStream env h (Reader.rewindable file 0) = true)
    (hnc : env.doneAt = none) :
    (HandleFile (pres.map Prod.fst ++ env :: post)
        (pres.map Prod.snd ++ h :: hsPost) file skel).1 = true ∧
      (HandleFile (pres.map Prod.fst ++ env :: post)
          (pres.map Prod.snd ++ h :: hsPost) file skel).2.1 =
        (processHandler env h (Reader.rewindable file 0) skel).2.1 ∧
      (processHandler env h (Reader.rewindable file 0) skel).1 = true := by
  obtain ⟨tr, htr⟩ := HandleFile_rejected_attempts pres (env :: post)
    (h :: hsPost) file skel hrej
  have hsucc := processHandler_accepted_eq env h (Reader.rewindable file 0)
    skel hacc hnc
  rw [htr]
  simp [HandleFile, hnf, hsucc]

theorem HandleFile_selection_order_witness :
    (HandleFile [defaultEnv, defaultEnv] [testRejectHandler, testOrdHandler]
        [3, 1] testSkel).1 = true ∧
      (HandleFile [defaultEnv, defaultEnv]
          [testRejectHandler, testOrdHandler] [3, 1] testSkel).2.1 =
        (processHandler defaultEnv testOrdHandler (Reader.rewindable [3, 1] 0)
            testSkel).2.1 ∧
      (processHandler defaultEnv testOrdHandler (Reader.rewindable [3, 1] 0)
          testSkel).1 = true :=
  HandleFile_selection_order [(defaultEnv, testRejectHandler)] defaultEnv
    testOrdHandler [] [] [3, 1] testSkel (by decide) (by decide) (by decide)
    (by decide)

/-- Claim C4: if re-reader construction fails for a variant's attempt
(the earlier variants having rejected the stream), the whole dispatch
call returns `false` with no chunks forwarded, and the trace ends at the
construction failure — no further variant is tried. -/
theorem HandleFile_construction_failure (pres : List (AttemptEnv × Handler))
    (env : AttemptEnv) (h : Handler) (post : List AttemptEnv)
    (hsPost : List Handler) (file : Bytes) (skel : Chunk)
    (hrej : ∀ p ∈ pres, p.1.newFails = false ∧
        acceptsStream p.1 p.2 (Reader.rewindable file 0) = false)
    (hnf : env.newFails = true) :
    ∃ tr, HandleFile (pres.map Prod.fst ++ env :: post)
        (pres.map Prod.snd ++ h :: hsPost) file skel =
      (false, [], tr ++ [Event.newCall, Event.newReReaderFailed]) := by
  obtain ⟨tr, htr⟩ := HandleFile_rejected_attempts pres (env :: post)
    (h :: hsPost) file skel hrej
  refine ⟨tr, ?_⟩
  rw [htr]
  simp [HandleFile, hnf]

theorem HandleFile_construction_failure_witness :
    (HandleFile
        [defaultEnv, { newFails := true, seekFails := false, doneAt := none }]
        [testRejectHandler, testOrdHandler] [3, 1] testSkel).1 = false ∧
      (HandleFile
          [defaultEnv, { newFails := true, seekFails := false, doneAt := none }]
          [testRejectHandler, testOrdHandler] [3, 1] testSkel).2.1 = [] := by
  obtain ⟨tr, htr⟩ := HandleFile_construction_failure
    [(defaultEnv, testRejectHandler)]
    { newFails := true, seekFails := false, doneAt := none } testOrdHandler
    [] [] [3, 1] testSkel (by decide) (by decide)
  simp only [List.map, List.cons_append, List.nil_append] at htr
  rw [htr]
  simp

/-- Claim C2: with the context never cancelled, `handleChunks` forwards
exactly the payloads received, in order, each as a clone of the caller's
skeleton with the payload attached as its data, and returns `true`. -/
theorem handleChunks_no_cancel (ps : List Payload) (skel : Chunk) :
    handleChunks none ps skel =
      (ps.map (fun p => { skel with data := p }), true) :=
  handleChunks_none_eq ps skel

/-- Claim C3: if the context's `Done` branch is selected at suspension
point `k` before the producer channel is drained (`k < 2 * N`), the relay
returns `false` and exactly the first `k / 2` payloads — those forwarded
before cancellation fired — appear on the output channel; nothing is
forwarded afterwards. -/
theorem handleChunks_cancelled (ps : List Payload) (skel : Chunk) (k : Nat)
    (hk : k < 2 * ps.length) :
    handleChunks (some k) ps skel =
      ((ps.take (k / 2)).map (fun p => { skel with data := p }), false) := by
  induction ps generalizing k with
  | nil => simp at hk
  | cons p rest ih =>
    match k with
    | 0 => rfl
    | 1 => rfl
    | k + 2 =>
      have hk' : k < 2 * rest.length := by
        simp [List.length_cons, Nat.mul_add] at hk
        omega
      have hdiv : (k + 2) / 2 = k / 2 + 1 := by omega
      simp [handleChunks, ih k hk', hdiv]

/-- Claim C5: if a variant's `HandleSpecialized` recognizes the stream,
its ordinary `IsFiletype` check is never invoked for that attempt, and the
replacement reader it returned — not the original re-reader — is fed to
`FromFile`, whose relayed chunks are the attempt's output. -/
theorem processHandler_specialized_precedence (env : AttemptEnv)
    (h : Handler) (r : Reader) (skel : Chunk)
    (hspec : Reader → Reader × Bool × Bool) (f : Reader) (errp : Bool)
    (hcap : h.specialized = some hspec)
    (hres : hspec r = (f, true, errp)) :
    (∀ res, Event.isFiletypeCall res ∉ (processHandler env h r skel).2.2) ∧
      Event.fromFileCall f ∈ (processHandler env h r skel).2.2 ∧
      (processHandler env h r skel).2.1 =
        (handleChunks env.doneAt (h.fromFile f) skel).1 := by
  refine ⟨fun res => ?_, ?_, ?_⟩ <;>
    simp [processHandler, hcap, hres, List.mem_map]

theorem processHandler_specialized_precedence_witness :
    Event.isFiletypeCall (Reader.external 5, false) ∉
        (processHandler defaultEnv testSpecHandler (Reader.rewindable [2] 0)
            testSkel).2.2 ∧
      Event.fromFileCall (Reader.external 5) ∈
        (processHandler defaultEnv testSpecHandler (Reader.rewindable [2] 0)
            testSkel).2.2 ∧
      (processHandler defaultEnv testSpecHandler (Reader.rewindable [2] 0)
          testSkel).2.1 =
        (handleChunks defaultEnv.doneAt
            (testSpecHandler.fromFile (Reader.external 5)) testSkel).1 :=
  ⟨(processHandler_specialized_precedence defaultEnv testSpecHandler
      (Reader.rewindable [2] 0) testSkel testSpecFn (Reader.external 5) true
      rfl rfl).1 (Reader.external 5, false),
    (processHandler_specialized_precedence defaultEnv testSpecHandler
      (Reader.rewindable [2] 0) testSkel testSpecFn (Reader.external 5) true
      rfl rfl).2.1,
    (processHandler_specialized_precedence defaultEnv testSpecHandler
      (Reader.rewindable [2] 0) testSkel testSpecFn (Reader.external 5) true
      rfl rfl).2.2⟩

/-- Claim C6: errors from `HandleSpecialized` never abort the attempt.
On a reader where it reports recognized together with an error, the error
is ignored and the attempt's chunks and result are those of relaying
`FromFile` on the replacement reader; on a reader where it reports
unrecognized with an error, the error is logged and the attempt continues
with the ordinary seek/type-check steps on the same re-reader. -/
theorem processHandler_specialized_errors (env : AttemptEnv) (h : Handler)
    (r1 r2 f1 f2 : Reader) (skel : Chunk)
    (hspec : Reader → Reader × Bool × Bool)
    (hcap : h.specialized = some hspec)
    (h1 : hspec r1 = (f1, true, true))
    (h2 : hspec r2 = (f2, false, true)) :
    ((processHandler env h r1 skel).2.1 =
        (handleChunks env.doneAt (h.fromFile f1) skel).1 ∧
      (processHandler env h r1 skel).1 =
        (handleChunks env.doneAt (h.fromFile f1) skel).2) ∧
      Event.logSpecialErr ∈ (processHandler env h r2 skel).2.2 ∧
      (processHandler env h r2 skel).1 = (ordinarySteps env h r2 skel).1 ∧
      (processHandler env h r2 skel).2.1 =
        (ordinarySteps env h r2 skel).2.1 := by
  refine ⟨⟨?_, ?_⟩, ?_, ?_, ?_⟩ <;>
    simp [processHandler, hcap, h1, h2]

theorem processHandler_specialized_errors_witness :
    ((processHandler defaultEnv testSpecHandler (Reader.rewindable [2] 0)
          testSkel).2.1 =
        (handleChunks defaultEnv.doneAt
            (testSpecHandler.fromFile (Reader.external 5)) testSkel).1 ∧
      (processHandler defaultEnv testSpecHandler (Reader.rewindable [2] 0)
          testSkel).1 =
        (handleChunks defaultEnv.doneAt
            (testSpecHandler.fromFile (Reader.external 5)) testSkel).2) ∧
      Event.logSpecialErr ∈
        (processHandler defaultEnv testSpecHandler (Reader.external 0)
            testSkel).2.2 ∧
      (processHandler defaultEnv testSpecHandler (Reader.external 0)
          testSkel).1 =
        (ordinarySteps defaultEnv testSpecHandler (Reader.external 0)
            testSkel).1 ∧
      (processHandler defaultEnv testSpecHandler (Reader.external 0)
          testSkel).2.1 =
        (ordinarySteps defaultEnv testSpecHandler (Reader.external 0)
            testSkel).2.1 :=
  processHandler_specialized_errors defaultEnv testSpecHandler
    (Reader.rewindable [2] 0) (Reader.external 0) (Reader.external 5)
    (Reader.external 6) testSkel testSpecFn rfl rfl rfl

/-- Claim C7: if seeking the re-reader back to the start fails after the
specialized probing step, only that variant's attempt fails — it sends no
chunks — and the dispatch loop moves on to the next registered variant,
whose outcome determines the rest of the call. -/
theorem processHandler_seek_failure (env : AttemptEnv) (h : Handler)
    (file : Bytes) (skel : Chunk) (envs2 : List AttemptEnv)
    (hs2 : List Handler)
    (hseek : env.seekFails = true) (hnf : env.newFails = false)
    (hns : ∀ hspec, h.specialized = some hspec →
        (hspec (Reader.rewindable file 0)).2.1 = false) :
    (processHandler env h (Reader.rewindable file 0) skel).1 = false ∧
      (processHandler env h (Reader.rewindable file 0) skel).2.1 = [] ∧
      (HandleFile (env :: envs2) (h :: hs2) file skel).1 =
        (HandleFile envs2 hs2 file skel).1 ∧
      (HandleFile (env :: envs2) (h :: hs2) file skel).2.1 =
        (HandleFile envs2 hs2 file skel).2.1 := by
  have hrej : acceptsStream env h (Reader.rewindable file 0) = false := by
    cases hsp : h.specialized with
    | none => simp [acceptsStream, hsp, hseek]
    | some hspec => simp [acceptsStream, hsp, hseek, hns hspec hsp]
  have hfail := processHandler_rejected_eq env h (Reader.rewindable file 0)
    skel hrej
  refine ⟨hfail.1, hfail.2, ?_, ?_⟩ <;>
    simp [HandleFile, hnf, hfail.1, hfail.2]

theorem processHandler_seek_failure_witness :
    (processHandler { newFails := false, seekFails := true, doneAt := none }
        testOrdHandler (Reader.rewindable [2] 0) testSkel).1 = false ∧
      (processHandler { newFails := false, seekFails := true, doneAt := none }
          testOrdHandler (Reader.rewindable [2] 0) testSkel).2.1 = [] ∧
      (HandleFile [{ newFails := false, seekFails := true, doneAt := none },
            defaultEnv] [testOrdHandler, testOrdHandler] [2] testSkel).1 =
        (HandleFile [defaultEnv] [testOrdHandler] [2] testSkel).1 ∧
      (HandleFile [{ newFails := false, seekFails := true, doneAt := none },
            defaultEnv] [testOrdHandler, testOrdHandler] [2] testSkel).2.1 =
        (HandleFile [defaultEnv] [testOrdHandler] [2] testSkel).2.1 :=
  processHandler_seek_failure
    { newFails := false, seekFails := true, doneAt := none } testOrdHandler
    [2] testSkel [defaultEnv] [testOrdHandler] rfl rfl
    (fun _ hcap => Option.noConfusion hcap)

/-- The ordinary-steps part of an attempt never emits release events:
those come only from the deferred `Stop`/`Close`. -/
theorem ordinarySteps_release_free (env : AttemptEnv) (h : Handler)
    (r : Reader) (skel : Chunk) :
    Event.stopCall ∉ (ordinarySteps env h r skel).2.2 ∧
      Event.closeCall ∉ (ordinarySteps env h r skel).2.2 := by
  cases hsf : env.seekFails with
  | true => simp [ordinarySteps, hsf]
  | false =>
    cases htc : (h.isFiletype (Reader.seekToStart r)).2 with
    | true => simp [ordinarySteps, hsf, htc, List.mem_map]
    | false => simp [ordinarySteps, hsf, htc]

/-- Claim C8: on every exit path of an attempt — specialized success,
specialized fall-through, seek failure, type-check rejection, relay
success and relay cancellation — the re-reader is released exactly once,
stopped first and then closed, as the final actions of the attempt. -/
theorem processHandler_release_once (env : AttemptEnv) (h : Handler)
    (r : Reader) (skel : Chunk) :
    ∃ tr, (processHandler env h r skel).2.2 =
        tr ++ [Event.stopCall, Event.closeCall] ∧
      Event.stopCall ∉ tr ∧ Event.closeCall ∉ tr := by
  cases hsp : h.specialized with
  | none =>
    exact ⟨(ordinarySteps env h r skel).2.2, by simp [processHandler, hsp],
      (ordinarySteps_release_free env h r skel).1,
      (ordinarySteps_release_free env h r skel).2⟩
  | some hspec =>
    cases hrec : (hspec r).2.1 with
    | true =>
      refine ⟨[Event.specializedCall (hspec r),
          Event.fromFileCall (hspec r).1] ++
          (handleChunks env.doneAt (h.fromFile (hspec r).1) skel).1.map
            Event.sent, ?_, ?_, ?_⟩ <;>
        simp [processHandler, hsp, hrec, List.mem_map]
    | false =>
      refine ⟨Event.specializedCall (hspec r) ::
          ((if (hspec r).2.2 then [Event.logSpecialErr] else []) ++
            (ordinarySteps env h r skel).2.2), ?_, ?_, ?_⟩
      · simp [processHandler, hsp, hrec]
      · cases herr : (hspec r).2.2 <;>
          simp [herr, (ordinarySteps_release_free env h r skel).1]
      · cases herr : (hspec r).2.2 <;>
          simp [herr, (ordinarySteps_release_free env h r skel).2]

/-- The default environment's construction never fails. -/
theorem defaultEnv_newFails : defaultEnv.newFails = false := rfl

/-- An attempt's trace never contains a re-reader construction event:
those are emitted by the dispatch loop itself. -/
theorem processHandler_no_construction (env : AttemptEnv) (h : Handler)
    (r : Reader) (skel : Chunk) (x : Reader) :
    Event.newReReader x ∉ (processHandler env h r skel).2.2 := by
  cases hsp : h.specialized with
  | none =>
    cases hsf : env.seekFails with
    | true => simp [processHandler, hsp, ordinarySteps, hsf]
    | false =>
      cases htc : (h.isFiletype (Reader.seekToStart r)).2 with
      | true =>
        simp [processHandler, hsp, ordinarySteps, hsf, htc, List.mem_map]
      | false => simp [processHandler, hsp, ordinarySteps, hsf, htc]
  | some hspec =>
    cases hrec : (hspec r).2.1 with
    | true => simp [processHandler, hsp, hrec, List.mem_map]
    | false =>
      cases herr : (hspec r).2.2 with
      | true =>
        cases hsf : env.seekFails with
        | true => simp [processHandler, hsp, hrec, herr, ordinarySteps, hsf]
        | false =>
          cases htc : (h.isFiletype (Reader.seekToStart r)).2 with
          | true =>
            simp [processHandler, hsp, hrec, herr, ordinarySteps, hsf, htc,
              List.mem_map]
          | false =>
            simp [processHandler, hsp, hrec, herr, ordinarySteps, hsf, htc]
      | false =>
        cases hsf : env.seekFails with
        | true => simp [processHandler, hsp, hrec, herr, ordinarySteps, hsf]
        | false =>
          cases htc : (h.isFiletype (Reader.seekToStart r)).2 with
          | true =>
            simp [processHandler, hsp, hrec, herr, ordinarySteps, hsf, htc,
              List.mem_map]
          | false =>
            simp [processHandler, hsp, hrec, herr, ordinarySteps, hsf, htc]

/-- Claim C9: every re-reader the dispatch loop constructs is a fresh
rewindable source over the raw input's bytes at position zero — it
presents the same underlying bytes from the start for each variant tried —
and each attempt whose construction succeeds runs its variant against
exactly that reader. -/
theorem HandleFile_fresh_rereader (envs : List AttemptEnv)
    (hs : List Handler) (file : Bytes) (skel : Chunk) :
    (∀ r, Event.newReReader r ∈ (HandleFile envs hs file skel).2.2 →
        r = Reader.rewindable file 0 ∧ r.remaining = some file) ∧
      ∀ env envs2 h hs2, env.newFails = false →
        ∃ tr, (HandleFile (env :: envs2) (h :: hs2) file skel).2.2 =
          Event.newCall :: Event.newReReader (Reader.rewindable file 0) ::
            ((processHandler env h (Reader.rewindable file 0) skel).2.2 ++
              tr) := by
  constructor
  · induction hs generalizing envs with
    | nil => simp [HandleFile]
    | cons h rest ih =>
      intro r hr
      rcases envs with _ | ⟨e, es⟩
      · cases hat : (processHandler defaultEnv h (Reader.rewindable file 0)
            skel).1 with
        | true =>
          simp [HandleFile, defaultEnv_newFails, hat] at hr
          rcases hr with hr | hr
          · exact ⟨hr, by rw [hr]; simp [Reader.remaining]⟩
          · exact absurd hr (processHandler_no_construction _ _ _ _ _)
        | false =>
          simp [HandleFile, defaultEnv_newFails, hat] at hr
          rcases hr with hr | hr | hr
          · exact ⟨hr, by rw [hr]; simp [Reader.remaining]⟩
          · exact absurd hr (processHandler_no_construction _ _ _ _ _)
          · exact ih [] r hr
      · cases hnf : e.newFails with
        | true => simp [HandleFile, hnf] at hr
        | false =>
          cases hat : (processHandler e h (Reader.rewindable file 0)
              skel).1 with
          | true =>
            simp [HandleFile, hnf, hat] at hr
            rcases hr with hr | hr
            · exact ⟨hr, by rw [hr]; simp [Reader.remaining]⟩
            · exact absurd hr (processHandler_no_construction _ _ _ _ _)
          | false =>
            simp [HandleFile, hnf, hat] at hr
            rcases hr with hr | hr | hr
            · exact ⟨hr, by rw [hr]; simp [Reader.remaining]⟩
            · exact absurd hr (processHandler_no_construction _ _ _ _ _)
            · exact ih es r hr
  · intro env envs2 h hs2 hnf
    cases hat : (processHandler env h (Reader.rewindable file 0) skel).1 with
    | true => exact ⟨[], by simp [HandleFile, hnf, hat]⟩
    | false =>
      exact ⟨(HandleFile envs2 hs2 file skel).2.2,
        by simp [HandleFile, hnf, hat]⟩

theorem HandleFile_fresh_rereader_witness :
    Reader.rewindable [3, 1] 0 = Reader.rewindable [3, 1] 0 ∧
      (Reader.rewindable [3, 1] 0).remaining = some [3, 1] :=
  (HandleFile_fresh_rereader [defaultEnv] [testOrdHandler] [3, 1]
      testSkel).1 (Reader.rewindable [3, 1] 0) (by decide)

/-- Claim C10: on the ordinary path, the reader returned by `IsFiletype`
is discarded — when the type check accepts, `FromFile` is run on the
re-reader itself (seeked back to the start), and no `FromFile` call is
made on the reader `IsFiletype` returned when that reader differs. -/
theorem processHandler_ordinary_reader (env : AttemptEnv) (h : Handler)
    (r r2 : Reader) (skel : Chunk)
    (hns : ∀ hspec, h.specialized = some hspec → (hspec r).2.1 = false)
    (hseek : env.seekFails = false)
    (htype : h.isFiletype (Reader.seekToStart r) = (r2, true)) :
    (processHandler env h r skel).2.1 =
        (handleChunks env.doneAt (h.fromFile (Reader.seekToStart r))
            skel).1 ∧
      Event.fromFileCall (Reader.seekToStart r) ∈
        (processHandler env h r skel).2.2 ∧
      (r2 ≠ Reader.seekToStart r →
        Event.fromFileCall r2 ∉ (processHandler env h r skel).2.2) := by
  cases hsp : h.specialized with
  | none =>
    refine ⟨?_, ?_, ?_⟩
    · simp [processHandler, hsp, ordinarySteps, hseek, htype]
    · simp [processHandler, hsp, ordinarySteps, hseek, htype, List.mem_map]
    · intro hne
      simp [processHandler, hsp, ordinarySteps, hseek, htype, List.mem_map,
        hne]
  | some hspec =>
    have hrec := hns hspec hsp
    cases herr : (hspec r).2.2 with
    | true =>
      refine ⟨?_, ?_, ?_⟩
      · simp [processHandler, hsp, hrec, herr, ordinarySteps, hseek, htype]
      · simp [processHandler, hsp, hrec, herr, ordinarySteps, hseek, htype,
          List.mem_map]
      · intro hne
        simp [processHandler, hsp, hrec, herr, ordinarySteps, hseek, htype,
          List.mem_map, hne]
    | false =>
      refine ⟨?_, ?_, ?_⟩
      · simp [processHandler, hsp, hrec, herr, ordinarySteps, hseek, htype]
      · simp [processHandler, hsp, hrec, herr, ordinarySteps, hseek, htype,
          List.mem_map]
      · intro hne
        simp [processHandler, hsp, hrec, herr, ordinarySteps, hseek, htype,
          List.mem_map, hne]

theorem processHandler_ordinary_reader_witness :
    (processHandler defaultEnv testOrdHandler (Reader.rewindable [2] 0)
          testSkel).2.1 =
        (handleChunks defaultEnv.doneAt
            (testOrdHandler.fromFile
              (Reader.seekToStart (Reader.rewindable [2] 0))) testSkel).1 ∧
      Event.fromFileCall (Reader.seekToStart (Reader.rewindable [2] 0)) ∈
        (processHandler defaultEnv testOrdHandler (Reader.rewindable [2] 0)
            testSkel).2.2 ∧
      Event.fromFileCall (Reader.external 9) ∉
        (processHandler defaultEnv testOrdHandler (Reader.rewindable [2] 0)
            testSkel).2.2 :=
  ⟨(processHandler_ordinary_reader defaultEnv testOrdHandler
      (Reader.rewindable [2] 0) (Reader.external 9) testSkel
      (fun _ hcap => Option.noConfusion hcap) rfl rfl).1,
    (processHandler_ordinary_reader defaultEnv testOrdHandler
      (Reader.rewindable [2] 0) (Reader.external 9) testSkel
      (fun _ hcap => Option.noConfusion hcap) rfl rfl).2.1,
    (processHandler_ordinary_reader defaultEnv testOrdHandler
      (Reader.rewindable [2] 0) (Reader.external 9) testSkel
      (fun _ hcap => Option.noConfusion hcap) rfl rfl).2.2 (by decide)⟩

theorem handleChunks_cancelled_witness :
    (1 : Nat) < 2 * ([[7], [8, 9]] : List Payload).length ∧
      handleChunks (some 1) [[7], [8, 9]]
          { sourceID := 3, sourceType := 5, verify := true, data := [] } =
        (([[7], [8, 9]].take (1 / 2)).map
            (fun p =>
              { sourceID := 3, sourceType := 5, verify := true, data := p }),
          false) :=
  ⟨by decide,
    handleChunks_cancelled [[7], [8, 9]]
      { sourceID := 3, sourceType := 5, verify := true, data := [] } 1
      (by decide)⟩
